import Mathlib

/-!
Verification of the stellenscout job-search aggregation subsystem
(`src/immermatch/`): provider-query routing (`search_provider.py`),
the combined fan-out provider, the query orchestrator
(`search_agent.search_all_queries`), the Bundesagentur detail/retry
machinery (`bundesagentur.py`) and the SerpApi locale helpers
(`serpapi_provider.py`), embedded shallowly.

Python strings are modelled as `String` (a list of characters);
Python dicts that preserve insertion order are modelled as association
lists with append-on-new-key.
-/

namespace Stellenscout

/-! ## Python string primitives -/

/-- Whitespace characters removed by Python `str.strip()` (ASCII range). -/
def pyIsSpace (c : Char) : Bool :=
  c = ' ' || c = '\t' || c = '\n' || c = '\r' || c = '\x0b' || c = '\x0c'

/-- Python `str.strip()` on a character list. -/
def pyStrip (l : List Char) : List Char :=
  ((l.dropWhile pyIsSpace).reverse.dropWhile pyIsSpace).reverse

/-- Split at the first occurrence of `sep` (Python `s.split(sep, 1)` when it
finds a separator): returns the part before and the part after. -/
def splitOnce (sep : List Char) : List Char → Option (List Char × List Char)
  | [] => if sep.isPrefixOf ([] : List Char) then some ([], []) else none
  | c :: rest =>
    if sep.isPrefixOf (c :: rest) then some ([], (c :: rest).drop sep.length)
    else
      match splitOnce sep rest with
      | some (pre, post) => some (c :: pre, post)
      | none => none

/-- Python `sub in s` (substring containment). -/
def containsSub (l sub : List Char) : Bool :=
  (splitOnce sub l).isSome

/-- Python `str.removeprefix`. -/
def pyRemoveStart (pre l : List Char) : List Char :=
  if pre.isPrefixOf l then l.drop pre.length else l

/-- Python `str.lower()` restricted to the characters this code meets
(ASCII plus the German umlauts appearing in the tables). -/
def pyToLowerChar (c : Char) : Char :=
  if c = 'Ä' then 'ä' else if c = 'Ö' then 'ö' else if c = 'Ü' then 'ü'
  else if 'A' ≤ c ∧ c ≤ 'Z' then Char.ofNat (c.toNat + 32) else c

/-- `str.lower()` on a character list. -/
def pyLowerData (l : List Char) : List Char := l.map pyToLowerChar

/-! ## Provider-query routing (`search_provider.py` lines 19-42) -/

def _PROVIDER_QUERY_PREFIX : String := "provider="

def _PROVIDER_QUERY_SEPARATOR : String := "::"

/-- `format_provider_query` (`search_provider.py` line 23). -/
def format_provider_query (provider_name query : String) : String :=
  _PROVIDER_QUERY_PREFIX ++ provider_name ++ _PROVIDER_QUERY_SEPARATOR ++ query

/-- `parse_provider_query` (`search_provider.py` lines 28-42). -/
def parse_provider_query (query : String) : Option String × String :=
  if _PROVIDER_QUERY_PREFIX.data.isPrefixOf query.data &&
      containsSub query.data _PROVIDER_QUERY_SEPARATOR.data then
    match splitOnce _PROVIDER_QUERY_SEPARATOR.data query.data with
    | some (meta, clean_query) =>
      let target := pyStrip (pyRemoveStart _PROVIDER_QUERY_PREFIX.data meta)
      let clean := pyStrip clean_query
      if !target.isEmpty && !clean.isEmpty then (some ⟨target⟩, ⟨clean⟩)
      else (none, query)
    | none => (none, query)
  else (none, query)

/-! ## Data model (`models.py`) -/

/-- `ApplyOption` (`models.py`). -/
structure ApplyOption where
  source : String
  url : String
deriving DecidableEq

/-- `JobListing` (`models.py`). -/
structure JobListing where
  title : String
  company_name : String
  location : String
  description : String := ""
  link : String := ""
  posted_at : String := ""
  source : String := ""
  apply_options : List ApplyOption := []
deriving DecidableEq

/-- The dedup key string `f"{job.title}|{job.company_name}|{job.location}"`
used both by `CombinedSearchProvider.search` (`search_provider.py` line 138)
and by `search_all_queries` (`search_agent.py` line 360). -/
def dedupKey (j : JobListing) : String :=
  j.title ++ "|" ++ j.company_name ++ "|" ++ j.location

/-- First-writer-wins insertion into an insertion-ordered map keyed by
`dedupKey` (the `if key not in merged / all_jobs` pattern). -/
def insertJob (m : List (String × JobListing)) (job : JobListing) :
    List (String × JobListing) :=
  if m.any (fun p => p.1 == dedupKey job) then m else m ++ [(dedupKey job, job)]

/-! ## Combined provider (`search_provider.py` lines 95-142)

A child provider is its `name` together with its `search` behaviour;
`search` returning `none` models the child raising an exception (which
`CombinedSearchProvider.search` catches and skips). -/

structure ChildProvider where
  name : String
  search : String → String → Nat → Option (List JobListing)

/-- One `provider.search(clean_query, location, max_results=per_provider)`
invocation recorded while a combined search runs. -/
structure ProviderCall where
  provider_name : String
  query : String
  max_results : Nat
deriving DecidableEq

/-- The child-selection step of `CombinedSearchProvider.search`
(lines 112-120): a targeted query keeps only the children with that name,
falling back to all children when none matches. -/
def selectedProviders (providers : List ChildProvider) (target : Option String) :
    List ChildProvider :=
  match target with
  | none => providers
  | some t =>
    let filtered := providers.filter (fun p => p.name == t)
    if filtered.isEmpty then providers else filtered

/-- Body of the `for provider in providers` loop (lines 130-140): record the
call, then merge the returned jobs first-writer-wins (a raising child is
caught and skipped, after its call was made). -/
def combinedStep (clean location : String) (per : Nat)
    (st : List (String × JobListing) × List ProviderCall) (p : ChildProvider) :
    List (String × JobListing) × List ProviderCall :=
  let calls := st.2 ++ [⟨p.name, clean, per⟩]
  match p.search clean location per with
  | none => (st.1, calls)
  | some jobs => (jobs.foldl insertJob st.1, calls)

/-- `CombinedSearchProvider.search` (lines 103-142), also returning the list
of child invocations it performed.  `math.ceil(max_results / len(providers))`
on positive operands is `(m + k - 1) / k` in `Nat`. -/
def combinedSearchRun (providers : List ChildProvider) (query location : String)
    (max_results : Int) : List JobListing × List ProviderCall :=
  if providers.isEmpty then ([], [])
  else
    let parsed := parse_provider_query query
    let sel := selectedProviders providers parsed.1
    if sel.isEmpty then ([], [])
    else if max_results ≤ 0 then ([], [])
    else
      let k := sel.length
      let m := max_results.toNat
      let per := max 1 ((m + k - 1) / k)
      let res := sel.foldl (combinedStep parsed.2 location per) ([], [])
      ((res.1.map Prod.snd).take m, res.2)

/-- The merged listing list returned to the caller. -/
def combinedSearch (providers : List ChildProvider) (query location : String)
    (max_results : Int) : List JobListing :=
  (combinedSearchRun providers query location max_results).1

/-! ## Query orchestrator (`search_agent.py` lines 291-400)

Worker results are serialised by the mutex in the order the futures
complete, so a run is modelled as a fold over the per-query result batches
in completion order.  Once `early_stop` is set the main loop cancels the
pending futures and breaks, so later batches are never read. -/

/-- `_MIN_JOBS_PER_PROVIDER` (`search_agent.py` line 34). -/
def _MIN_JOBS_PER_PROVIDER : Nat := 30

/-- `(job.source or "unknown").lower()` (`search_agent.py` line 364). -/
def sourceKey (j : JobListing) : String :=
  ⟨pyLowerData (if j.source.isEmpty then "unknown" else j.source).data⟩

/-- Lookup in the `source_counts` dict, defaulting to 0. -/
def getCount (m : List (String × Nat)) (k : String) : Nat :=
  match m.find? (fun p => p.1 == k) with
  | some p => p.2
  | none => 0

/-- `source_counts[source] = source_counts.get(source, 0) + 1`
(insertion-ordered dict update). -/
def bumpCount (m : List (String × Nat)) (k : String) : List (String × Nat) :=
  if m.any (fun p => p.1 == k) then
    m.map (fun p => if p.1 == k then (p.1, p.2 + 1) else p)
  else m ++ [(k, 1)]

/-- The orchestrator's shared state: the dedup map `all_jobs`, the
per-source counters, the completed-query counter, the `early_stop` event
and the chronological list of `on_progress(completed, total, unique)`
arguments. -/
structure SAState where
  all_jobs : List (String × JobListing)
  source_counts : List (String × Nat)
  completed : Nat
  early_stop : Bool
  progress : List (Nat × Nat × Nat)
deriving DecidableEq

def initState : SAState := ⟨[], [], 0, false, []⟩

/-- Per-listing body of the `for job in jobs` loop under the lock
(`search_agent.py` lines 359-365): first-writer-wins insert plus a
per-source counter bump for newly-unique listings only. -/
def processJob (st : SAState) (job : JobListing) : SAState :=
  if st.all_jobs.any (fun p => p.1 == dedupKey job) then st
  else
    { st with
      all_jobs := st.all_jobs ++ [(dedupKey job, job)]
      source_counts := bumpCount st.source_counts (sourceKey job) }

/-- Handling of one completed query batch under the lock
(`search_agent.py` lines 357-372): merge the batch, bump `completed`,
record the `on_progress` arguments, and set `early_stop` when the
effective minimum and (if quota tracking is active) every source floor
are met. -/
def processBatch (quotaSources : List String) (minUnique total : Nat)
    (st : SAState) (jobs : List JobListing) : SAState :=
  let st1 := jobs.foldl processJob st
  let uniq := st1.all_jobs.length
  let quotaMet := quotaSources.all
    (fun s => _MIN_JOBS_PER_PROVIDER ≤ getCount st1.source_counts s)
  let stop := st1.early_stop ||
    (decide (0 < minUnique) && decide (minUnique ≤ uniq) && quotaMet)
  { st1 with
    completed := st1.completed + 1
    progress := st1.progress ++ [(st1.completed + 1, total, uniq)]
    early_stop := stop }

/-- The `as_completed` consumption loop (`search_agent.py` lines 351-383):
batches are folded in completion order until `early_stop` breaks the loop. -/
def runQueue (quotaSources : List String) (minUnique total : Nat) :
    SAState → List (List JobListing) → SAState
  | st, [] => st
  | st, b :: bs =>
    if st.early_stop then st
    else runQueue quotaSources minUnique total
      (processBatch quotaSources minUnique total st b) bs

/-- The flat list of listings the orchestrator actually reads from
completed futures (in processing order); batches after `early_stop`
are cancelled or dropped unread. -/
def consumedJobs (quotaSources : List String) (minUnique total : Nat) :
    SAState → List (List JobListing) → List JobListing
  | _, [] => []
  | st, b :: bs =>
    if st.early_stop then []
    else b ++ consumedJobs quotaSources minUnique total
      (processBatch quotaSources minUnique total st b) bs

/-- The quota-floor raise of `search_all_queries` (`search_agent.py`
lines 329-333): when the provider is combined and its (distinct) quota
source keys are non-empty and `min_unique_jobs` is non-zero, the
threshold is raised to at least `_MIN_JOBS_PER_PROVIDER` per source.
`quotaSources` stands for the deduplicated key set. -/
def effectiveMinUnique (isCombined : Bool) (quotaSources : List String)
    (minUnique : Nat) : Nat :=
  if isCombined && !quotaSources.isEmpty && decide (0 < minUnique) then
    max minUnique (_MIN_JOBS_PER_PROVIDER * quotaSources.length)
  else minUnique

/-- `search_all_queries` (`search_agent.py` lines 291-400) at the level the
claims speak about: the per-query provider result batches, in completion
order, are an input. -/
def searchAllQueriesModel (isCombined : Bool) (quotaSources : List String)
    (minUnique total : Nat) (batches : List (List JobListing)) : SAState :=
  let qs := if isCombined then quotaSources else []
  runQueue qs (effectiveMinUnique isCombined quotaSources minUnique) total
    initState batches

/-! ## Bundesagentur client (`bundesagentur.py`)

HTTP is modelled by an oracle `responses : Nat → HttpOutcome` giving the
outcome of the request made on each attempt.  JSON values are an abstract
inductive; `json.loads` / `resp.json()` (Python stdlib) are abstract
parameters `loads`, `jsonOf : String → Option Json`, `none` meaning the
parse raised. -/

/-- Outcome of one `client.get(...)`: a response with a status code and
body text, or an `httpx.HTTPError` (network failure). -/
inductive HttpOutcome where
  | resp (status : Nat) (body : String)
  | netErr
deriving DecidableEq

/-- JSON values, enough structure for the detail payloads. -/
inductive Json where
  | null
  | bool (b : Bool)
  | num (n : Int)
  | str (s : String)
  | arr (elems : List Json)
  | obj (fields : List (String × Json))

/-- `{}`. -/
def emptyObj : Json := Json.obj []

/-- Python `dict.get(k, default)` on a JSON object's fields. -/
def jsonGet (fields : List (String × Json)) (k : String) (default : Json) :
    Json :=
  match fields.find? (fun p => p.1 == k) with
  | some p => p.2
  | none => default

/-- What a Bundesagentur fetch helper does: return a dict, or let an
exception propagate out of the function. -/
inductive FetchResult where
  | ok (detail : Json)
  | raised (exc : String)

/-- `_MAX_RETRIES` (`bundesagentur.py` line 42). -/
def _MAX_RETRIES : Nat := 3

/-- The transient statuses retried by all three request paths:
`{403, 429, 500, 502, 503}` (`bundesagentur.py` lines 103, 138, 388). -/
def isRetryableStatus (s : Nat) : Bool :=
  s = 403 || s = 429 || s = 500 || s = 502 || s = 503

/-! ### `_NG_STATE_RE` (`bundesagentur.py` lines 48-51)

`re.search` of
`<script\s+id="ng-state"\s+type="application/json">(.*?)</script>`
with `DOTALL`: scan for the leftmost start position where the opening
pattern matches, then capture lazily up to the first `</script>`.
`\s+` is greedy, but since the literal following it starts with a
non-space character it is exactly "one-or-more spaces, maximal munch". -/

/-- Match a literal at the head of the input, returning the remainder. -/
def dropLit : List Char → List Char → Option (List Char)
  | [], l => some l
  | _ :: _, [] => none
  | c :: cs, d :: l => if c = d then dropLit cs l else none

/-- `\s+` followed by a non-space literal: one or more whitespace chars,
maximal munch. -/
def dropSpaces1 : List Char → Option (List Char)
  | [] => none
  | c :: rest =>
    if pyIsSpace c then some (rest.dropWhile pyIsSpace) else none

/-- Match the fixed opening part of `_NG_STATE_RE` at this position,
returning the text after the closing `>`. -/
def matchNgOpen (l : List Char) : Option (List Char) :=
  (dropLit "<script".data l).bind fun l1 =>
  (dropSpaces1 l1).bind fun l2 =>
  (dropLit "id=\"ng-state\"".data l2).bind fun l3 =>
  (dropSpaces1 l3).bind fun l4 =>
  dropLit "type=\"application/json\">".data l4

/-- Lazy capture `(.*?)</script>` (DOTALL): the text before the first
`</script>` in the remainder, or no match if it never closes. -/
def captureUntilClose : List Char → Option (List Char)
  | [] => none
  | c :: rest =>
    if "</script>".data.isPrefixOf (c :: rest) then some []
    else
      match captureUntilClose rest with
      | some cap => some (c :: cap)
      | none => none

/-- `_NG_STATE_RE.search(text)`: the capture group of the leftmost match. -/
def ngStateSearch : List Char → Option (List Char)
  | [] => none
  | c :: rest =>
    match (matchNgOpen (c :: rest)).bind captureUntilClose with
    | some cap => some cap
    | none => ngStateSearch rest

/-- Retry loop of `_fetch_detail` (`bundesagentur.py` lines 86-122),
returning the result together with the number of requests made.  On a 200
response the ng-state blob is extracted; a missing tag yields `{}`.
`json.loads` failure raises `json.JSONDecodeError`, which the
`except httpx.HTTPError` clause does NOT catch, so it propagates; likewise
`state.get` on a non-dict raises.  Transient statuses and network errors
are retried; any other status returns `{}` at once; after `_MAX_RETRIES`
attempts the loop falls through to `return {}`. -/
def fetchDetailLoop (loads : String → Option Json)
    (responses : Nat → HttpOutcome) : Nat → Nat → FetchResult × Nat
  | attempt, 0 => (.ok emptyObj, attempt)
  | attempt, fuel + 1 =>
    match responses attempt with
    | .resp s body =>
      if s = 200 then
        match ngStateSearch body.data with
        | some captured =>
          match loads ⟨captured⟩ with
          | some (.obj fields) => (.ok (jsonGet fields "jobdetail" emptyObj), attempt + 1)
          | some _ => (.raised "AttributeError", attempt + 1)
          | none => (.raised "json.JSONDecodeError", attempt + 1)
        | none => (.ok emptyObj, attempt + 1)
      else if isRetryableStatus s then
        fetchDetailLoop loads responses (attempt + 1) fuel
      else (.ok emptyObj, attempt + 1)
    | .netErr => fetchDetailLoop loads responses (attempt + 1) fuel

/-- `_fetch_detail` (`bundesagentur.py` lines 86-122). -/
def _fetch_detail (loads : String → Option Json)
    (responses : Nat → HttpOutcome) : FetchResult × Nat :=
  fetchDetailLoop loads responses 0 _MAX_RETRIES

/-- Retry loop of `_fetch_detail_api` (`bundesagentur.py` lines 125-157).
Here `resp.json()` failure is a `ValueError`, which IS caught
(`except (httpx.HTTPError, ValueError)`), so it retries; a 200 whose JSON
is not a dict yields `{}`. -/
def fetchDetailApiLoop (jsonOf : String → Option Json)
    (responses : Nat → HttpOutcome) : Nat → Nat → FetchResult × Nat
  | attempt, 0 => (.ok emptyObj, attempt)
  | attempt, fuel + 1 =>
    match responses attempt with
    | .resp s body =>
      if s = 200 then
        match jsonOf body with
        | some (.obj fields) => (.ok (.obj fields), attempt + 1)
        | some _ => (.ok emptyObj, attempt + 1)
        | none => fetchDetailApiLoop jsonOf responses (attempt + 1) fuel
      else if isRetryableStatus s then
        fetchDetailApiLoop jsonOf responses (attempt + 1) fuel
      else (.ok emptyObj, attempt + 1)
    | .netErr => fetchDetailApiLoop jsonOf responses (attempt + 1) fuel

/-- `_fetch_detail_api` (`bundesagentur.py` lines 125-157). -/
def _fetch_detail_api (jsonOf : String → Option Json)
    (responses : Nat → HttpOutcome) : FetchResult × Nat :=
  fetchDetailApiLoop jsonOf responses 0 _MAX_RETRIES

/-- Retry loop of `BundesagenturProvider._get_with_retry`
(`bundesagentur.py` lines 375-402): a 200 response is returned, transient
statuses and network errors are retried, anything else gives up with
`None`; exhaustion also yields `None`. -/
def getWithRetryLoop (responses : Nat → HttpOutcome) :
    Nat → Nat → Option (Nat × String) × Nat
  | attempt, 0 => (none, attempt)
  | attempt, fuel + 1 =>
    match responses attempt with
    | .resp s body =>
      if s = 200 then (some (s, body), attempt + 1)
      else if isRetryableStatus s then
        getWithRetryLoop responses (attempt + 1) fuel
      else (none, attempt + 1)
    | .netErr => getWithRetryLoop responses (attempt + 1) fuel

/-- `BundesagenturProvider._get_with_retry` (`bundesagentur.py`
lines 375-402). -/
def _get_with_retry (responses : Nat → HttpOutcome) :
    Option (Nat × String) × Nat :=
  getWithRetryLoop responses 0 _MAX_RETRIES

/-! ## SerpApi locale helpers (`serpapi_provider.py` lines 50-180) -/

/-- `GL_CODES` (`serpapi_provider.py` lines 50-151), in dict insertion
order (Python dict iteration order). -/
def GL_CODES : List (String × String) := [
  ("germany", "de"), ("deutschland", "de"), ("france", "fr"),
  ("netherlands", "nl"), ("holland", "nl"), ("belgium", "be"),
  ("austria", "at"), ("österreich", "at"), ("switzerland", "ch"),
  ("schweiz", "ch"), ("suisse", "ch"), ("spain", "es"), ("españa", "es"),
  ("italy", "it"), ("italia", "it"), ("portugal", "pt"), ("poland", "pl"),
  ("polska", "pl"), ("sweden", "se"), ("sverige", "se"), ("norway", "no"),
  ("norge", "no"), ("denmark", "dk"), ("danmark", "dk"), ("finland", "fi"),
  ("suomi", "fi"), ("ireland", "ie"), ("czech republic", "cz"),
  ("czechia", "cz"), ("romania", "ro"), ("hungary", "hu"), ("greece", "gr"),
  ("luxembourg", "lu"), ("uk", "uk"), ("united kingdom", "uk"),
  ("england", "uk"),
  ("berlin", "de"), ("munich", "de"), ("münchen", "de"), ("hamburg", "de"),
  ("frankfurt", "de"), ("stuttgart", "de"), ("düsseldorf", "de"),
  ("köln", "de"), ("cologne", "de"), ("hannover", "de"), ("nürnberg", "de"),
  ("nuremberg", "de"), ("leipzig", "de"), ("dresden", "de"),
  ("dortmund", "de"), ("essen", "de"), ("bremen", "de"),
  ("paris", "fr"), ("lyon", "fr"), ("marseille", "fr"), ("toulouse", "fr"),
  ("amsterdam", "nl"), ("rotterdam", "nl"), ("eindhoven", "nl"),
  ("utrecht", "nl"), ("brussels", "be"), ("bruxelles", "be"),
  ("antwerp", "be"), ("vienna", "at"), ("wien", "at"), ("graz", "at"),
  ("zurich", "ch"), ("zürich", "ch"), ("geneva", "ch"), ("genève", "ch"),
  ("basel", "ch"), ("bern", "ch"), ("madrid", "es"), ("barcelona", "es"),
  ("rome", "it"), ("milan", "it"), ("milano", "it"), ("lisbon", "pt"),
  ("porto", "pt"), ("warsaw", "pl"), ("kraków", "pl"), ("krakow", "pl"),
  ("wrocław", "pl"), ("stockholm", "se"), ("gothenburg", "se"),
  ("malmö", "se"), ("oslo", "no"), ("copenhagen", "dk"), ("helsinki", "fi"),
  ("dublin", "ie"), ("prague", "cz"), ("bucharest", "ro"),
  ("budapest", "hu"), ("athens", "gr"), ("london", "uk"),
  ("manchester", "uk"), ("edinburgh", "uk")]

/-- `_REMOTE_TOKENS` (`serpapi_provider.py` line 157); a Python set used
only for membership, modelled as a list. -/
def _REMOTE_TOKENS : List String :=
  ["remote", "worldwide", "global", "anywhere", "weltweit"]

/-- Word characters kept by `re.sub(r"[^\w]", "", w)` (ASCII `\w`). -/
def pyIsWordChar (c : Char) : Bool := c.isAlphanum || c = '_'

/-- Python `str.split()` with no argument: split on whitespace runs,
dropping empty pieces (accumulator holds the current word reversed). -/
def splitWsAux : List Char → List Char → List (List Char)
  | [], cur => if cur.isEmpty then [] else [cur.reverse]
  | c :: rest, cur =>
    if pyIsSpace c then
      if cur.isEmpty then splitWsAux rest []
      else cur.reverse :: splitWsAux rest []
    else splitWsAux rest (c :: cur)

/-- The processed token multiset of `is_remote_only`:
`{re.sub(r"[^\w]", "", w).lower() for w in location.split() if w.strip()}`. -/
def remoteWords (location : String) : List (List Char) :=
  (splitWsAux location.data []).map
    (fun w => pyLowerData (w.filter pyIsWordChar))

/-- `is_remote_only` (`serpapi_provider.py` lines 160-163): true when the
location splits into at least one word and every processed word is a
remote-like token. -/
def is_remote_only (location : String) : Bool :=
  let words := remoteWords location
  !words.isEmpty &&
    words.all (fun w => _REMOTE_TOKENS.any (fun t => t.data == w))

/-- `infer_gl` (`serpapi_provider.py` lines 166-180): `None` for
remote-only locations; otherwise the code of the first `GL_CODES` entry
whose name occurs as a substring (`name in loc_lower`) of the lowercased
location, defaulting to `"de"`. -/
def infer_gl (location : String) : Option String :=
  if is_remote_only location then none
  else
    let loc := pyLowerData location.data
    match GL_CODES.find? (fun p => containsSub loc p.1.data) with
    | some p => some p.2
    | none => some "de"

/-! ## Specification-side predicates and concrete fixtures -/

/-- Two listings agree on the (title, company, location) identity triple. -/
def sameTriple (x j : JobListing) : Bool :=
  x.title == j.title && x.company_name == j.company_name &&
    x.location == j.location

/-- The string contains no `'|'` (the dedup-key separator). -/
def pipeFreeStr (s : String) : Bool := !s.data.any (fun c => c = '|')

/-- No dedup-key field of the listing contains the `'|'` separator. -/
def pipeFree (j : JobListing) : Bool :=
  pipeFreeStr j.title && pipeFreeStr j.company_name && pipeFreeStr j.location

/-- A provider name the routing-tag codec round-trips: non-empty, no
leading/trailing whitespace, not containing the `"::"` separator, and not
ending in `':'` (else the tag's first `"::"` shifts left). -/
def goodRouteName (n : String) : Prop :=
  n.data ≠ [] ∧ pyStrip n.data = n.data ∧
    containsSub n.data _PROVIDER_QUERY_SEPARATOR.data = false ∧
    n.data.getLast? ≠ some ':'

/-- A query the routing-tag codec round-trips: non-empty with no
leading/trailing whitespace. -/
def goodRouteQuery (q : String) : Prop :=
  q.data ≠ [] ∧ pyStrip q.data = q.data

/-- Chronological `(completed, total, unique)` progress reports are
non-decreasing in the completed count and the unique count. -/
def progressMono : List (Nat × Nat × Nat) → Prop
  | [] => True
  | [_] => True
  | a :: b :: rest => (a.1 ≤ b.1 ∧ a.2.2 ≤ b.2.2) ∧ progressMono (b :: rest)

/-- Two listings with distinct (title, company, location) triples whose
dedup-key strings nevertheless coincide (`"a|b"|"c"|"d"` = `"a"|"b|c"|"d"`). -/
def cxJobA : JobListing := { title := "a|b", company_name := "c", location := "d" }

def cxJobB : JobListing := { title := "a", company_name := "b|c", location := "d" }

/-- Concrete children for the routing counterexample. -/
def cxProvX : ChildProvider := ⟨"X", fun _ _ _ => some []⟩

def cxProvY : ChildProvider := ⟨"Y", fun _ _ _ => some []⟩

/-- A 200 detail page whose ng-state script tag holds text that is not
valid JSON (`json.loads` raises on it). -/
def badBody : String :=
  "<html><script id=\"ng-state\" type=\"application/json\">not json</script></html>"

/-- A 200 detail page whose ng-state blob is the JSON object binding
"jobdetail" to the object binding "x" to 1. -/
def goodBody : String :=
  "<html><script id=\"ng-state\" type=\"application/json\">\x7b\"jobdetail\": \x7b\"x\": 1\x7d\x7d</script></html>"

/-- The parse oracle for `goodBody`'s blob: `json.loads` yields the object
binding "jobdetail" to the object binding "x" to 1. -/
def goodLoads : String → Option Json := fun s =>
  if s = "\x7b\"jobdetail\": \x7b\"x\": 1\x7d\x7d" then
    some (Json.obj [("jobdetail", Json.obj [("x", Json.num 1)])])
  else none

/-- Demo listing for the quota-fairness witness: distinct dedup key per
(source, index), tagged with the given source. -/
def demoJob (src : String) (i : Nat) : JobListing :=
  { title := toString i ++ src, company_name := "c", location := "l",
    source := src }

/-- One completed batch holding 30 unique listings from source `"a"` and
30 from source `"b"`. -/
def demoBatch : List JobListing :=
  ((List.range 30).map (demoJob "a")) ++ ((List.range 30).map (demoJob "b"))

/-! ## Helper lemmas: substring search and the routing-tag codec -/

theorem isPrefixOf_append_self (a b : List Char) :
    a.isPrefixOf (a ++ b) = true := by
  induction a with
  | nil => simp [List.isPrefixOf]
  | cons c cs ih => simp [List.isPrefixOf, ih]

theorem containsSub_cons_of {c : Char} {l sub : List Char}
    (h : containsSub l sub = true) : containsSub (c :: l) sub = true := by
  unfold containsSub at h ⊢
  rw [splitOnce]
  by_cases hp : sub.isPrefixOf (c :: l) = true
  · simp [hp]
  · simp only [hp, if_false, Bool.not_eq_true] at *
    cases hs : splitOnce sub l with
    | none => rw [hs] at h; simp at h
    | some pr =>
      obtain ⟨a, b⟩ := pr
      simp [hp, hs]

theorem containsSub_of_prefixMatch {l sub : List Char}
    (h : sub.isPrefixOf l = true) : containsSub l sub = true := by
  unfold containsSub
  cases l with
  | nil => simp [splitOnce, h]
  | cons c rest => rw [splitOnce]; simp [h]

theorem containsSub_colcol_cons (c : Char) (l : List Char) (hc : c ≠ ':') :
    containsSub (c :: l) [':', ':'] = containsSub l [':', ':'] := by
  unfold containsSub
  rw [splitOnce]
  have hpf : ([':', ':'] : List Char).isPrefixOf (c :: l) = false := by
    simp [List.isPrefixOf, Ne.symm hc]
  rw [hpf]
  simp only [Bool.false_eq_true, if_false]
  cases hs : splitOnce [':', ':'] l with
  | none => simp
  | some pr => obtain ⟨a, b⟩ := pr; simp

theorem containsSub_provider_append (l : List Char) :
    containsSub ("provider=".data ++ l) [':', ':'] = containsSub l [':', ':'] := by
  show containsSub
    ('p' :: 'r' :: 'o' :: 'v' :: 'i' :: 'd' :: 'e' :: 'r' :: '=' :: l) [':', ':'] = _
  rw [containsSub_colcol_cons _ _ (by decide), containsSub_colcol_cons _ _ (by decide),
    containsSub_colcol_cons _ _ (by decide), containsSub_colcol_cons _ _ (by decide),
    containsSub_colcol_cons _ _ (by decide), containsSub_colcol_cons _ _ (by decide),
    containsSub_colcol_cons _ _ (by decide), containsSub_colcol_cons _ _ (by decide),
    containsSub_colcol_cons _ _ (by decide)]

theorem pyRemoveStart_append (a b : List Char) :
    pyRemoveStart a (a ++ b) = b := by
  unfold pyRemoveStart
  rw [isPrefixOf_append_self]
  simp [List.drop_left]

/-- `splitOnce` cuts exactly at an inserted `"::"` marker, provided the part
before the marker has no `"::"` and does not end in `':'`. -/
theorem splitOnce_marker (rest : List Char) :
    ∀ pre : List Char, containsSub pre [':', ':'] = false →
      pre.getLast? ≠ some ':' →
      splitOnce [':', ':'] (pre ++ ':' :: ':' :: rest) = some (pre, rest) := by
  intro pre
  induction pre with
  | nil =>
    intro _ _
    rw [List.nil_append, splitOnce]
    simp [List.isPrefixOf]
  | cons c pre ih =>
    intro hnc hlast
    rw [List.cons_append, splitOnce]
    have hp : ([':', ':'] : List Char).isPrefixOf
        (c :: (pre ++ ':' :: ':' :: rest)) = false := by
      cases pre with
      | nil =>
        have hc : c ≠ ':' := by
          intro h
          exact hlast (by simp [h])
        simp [List.isPrefixOf, Ne.symm hc]
      | cons d pre2 =>
        by_cases hc : c = ':'
        · by_cases hd : d = ':'
          · exfalso
            subst hc; subst hd
            have hmem : containsSub (':' :: ':' :: pre2) [':', ':'] = true :=
              containsSub_of_prefixMatch (by simp [List.isPrefixOf])
            rw [hmem] at hnc
            exact Bool.noConfusion hnc
          · subst hc
            have hdd : (':' == d) = false :=
              beq_eq_false_iff_ne.mpr (fun h => hd h.symm)
            simp [List.isPrefixOf, hdd]
        · simp [List.isPrefixOf, Ne.symm hc]
    rw [hp]
    simp only [Bool.false_eq_true, if_false]
    have hnc' : containsSub pre [':', ':'] = false := by
      cases h : containsSub pre [':', ':'] with
      | false => rfl
      | true =>
        rw [containsSub_cons_of (c := c) h] at hnc
        exact Bool.noConfusion hnc
    have hlast' : pre.getLast? ≠ some ':' := by
      cases pre with
      | nil => simp
      | cons d pre2 =>
        rw [List.getLast?_cons_cons] at hlast
        exact hlast
    rw [ih hnc' hlast']

/-- The routing-tag codec round-trips for a name that is non-empty, has no
surrounding whitespace, no `"::"`, and does not end in `':'`, and a
non-empty query with no surrounding whitespace. -/
theorem parse_format_roundtrip (n q : String) (hn : goodRouteName n)
    (hq : goodRouteQuery q) :
    parse_provider_query (format_provider_query n q) = (some n, q) := by
  obtain ⟨hn1, hn2, hn3, hn4⟩ := hn
  obtain ⟨hq1, hq2⟩ := hq
  have hdata : (format_provider_query n q).data
      = "provider=".data ++ (n.data ++ ':' :: ':' :: q.data) := by
    simp [format_provider_query, _PROVIDER_QUERY_PREFIX,
      _PROVIDER_QUERY_SEPARATOR, String.data_append]
  have hn3' : containsSub n.data [':', ':'] = false := hn3
  have hpre : containsSub ("provider=".data ++ n.data) [':', ':'] = false := by
    rw [containsSub_provider_append]; exact hn3'
  have hlastp : ("provider=".data ++ n.data).getLast? ≠ some ':' := by
    rw [List.getLast?_append_of_ne_nil _ hn1]; exact hn4
  have hsplit : splitOnce [':', ':']
      ("provider=".data ++ (n.data ++ ':' :: ':' :: q.data))
      = some ("provider=".data ++ n.data, q.data) := by
    rw [← List.append_assoc]
    exact splitOnce_marker q.data _ hpre hlastp
  have hsep : _PROVIDER_QUERY_SEPARATOR.data = [':', ':'] := rfl
  have hcontains : containsSub
      ("provider=".data ++ (n.data ++ ':' :: ':' :: q.data)) [':', ':'] = true := by
    unfold containsSub
    rw [hsplit]
    rfl
  unfold parse_provider_query
  simp only [hdata, hsep,
    (show _PROVIDER_QUERY_PREFIX.data = "provider=".data from rfl)]
  rw [isPrefixOf_append_self, hcontains, hsplit]
  simp only [Bool.and_self, if_true]
  rw [pyRemoveStart_append, hn2, hq2]
  have hne1 : n.data.isEmpty = false := by
    cases h : n.data with
    | nil => exact absurd h hn1
    | cons a l => rfl
  have hne2 : q.data.isEmpty = false := by
    cases h : q.data with
    | nil => exact absurd h hq1
    | cons a l => rfl
  simp [hne1, hne2]

/-- Claim C10 counterexample: the name `"a:"` and query `"b"` satisfy every
hypothesis of the claim (name non-empty, no `"::"`, no surrounding
whitespace; query non-empty, no surrounding whitespace), yet the round trip
returns `(some "a", ":b")`, not `(some "a:", "b")`: the name's trailing
`':'` shifts the first `"::"` of the formatted tag one position left. -/
theorem provider_query_roundtrip_cx :
    ("a:" : String).data ≠ [] ∧ pyStrip "a:".data = "a:".data ∧
    containsSub "a:".data _PROVIDER_QUERY_SEPARATOR.data = false ∧
    ("b" : String).data ≠ [] ∧ pyStrip "b".data = "b".data ∧
    parse_provider_query (format_provider_query "a:" "b") = (some "a", ":b") ∧
    parse_provider_query (format_provider_query "a:" "b") ≠ (some "a:", "b") := by
  decide

/-- Claim C10 (amended): for every provider name that is non-empty, contains
no `"::"`, has no leading or trailing whitespace, and does not end with
`':'`, and every query that is non-empty with no leading or trailing
whitespace, `parse_provider_query (format_provider_query name query)`
returns exactly `(name, query)`. -/
theorem provider_query_roundtrip (n q : String)
    (hn1 : n.data ≠ []) (hn2 : pyStrip n.data = n.data)
    (hn3 : containsSub n.data _PROVIDER_QUERY_SEPARATOR.data = false)
    (hn4 : n.data.getLast? ≠ some ':')
    (hq1 : q.data ≠ []) (hq2 : pyStrip q.data = q.data) :
    parse_provider_query (format_provider_query n q) = (some n, q) :=
  parse_format_roundtrip n q ⟨hn1, hn2, hn3, hn4⟩ ⟨hq1, hq2⟩

/-- Concrete instance of `provider_query_roundtrip` at name `"X"`,
query `"foo"`. -/
theorem provider_query_roundtrip_witness :
    parse_provider_query (format_provider_query "X" "foo") = (some "X", "foo") :=
  provider_query_roundtrip "X" "foo" (by decide) (by decide) (by decide)
    (by decide) (by decide) (by decide)

/-! ## Helper lemmas: combined provider -/

theorem selectedProviders_ne_nil {providers : List ChildProvider}
    (target : Option String) (h : providers ≠ []) :
    selectedProviders providers target ≠ [] := by
  unfold selectedProviders
  cases target with
  | none => exact h
  | some t =>
    by_cases he : (providers.filter (fun p => p.name == t)).isEmpty
    · simp only [he, if_true]
      exact h
    · simp only [he, Bool.false_eq_true, if_false]
      intro hc
      rw [hc] at he
      exact he rfl

/-- The invocation trace of the child loop: every selected child is called
once, in order, with the clean query and the per-child budget. -/
theorem combinedFold_calls (clean location : String) (per : Nat)
    (sel : List ChildProvider) :
    ∀ acc, (sel.foldl (combinedStep clean location per) acc).2
      = acc.2 ++ sel.map (fun p => ⟨p.name, clean, per⟩) := by
  induction sel with
  | nil => intro acc; simp
  | cons p sel ih =>
    intro acc
    rw [List.foldl_cons, ih]
    unfold combinedStep
    cases p.search clean location per with
    | none => simp
    | some jobs => simp

theorem sum_map_const {α : Type} (l : List α) (c : Nat) :
    (l.map (fun _ => c)).sum = l.length * c := by
  induction l with
  | nil => simp
  | cons a l ih =>
    simp [ih, Nat.succ_mul]
    ring

/-- `CombinedSearchProvider.search` on a non-positive budget: no calls,
empty result (`search_provider.py` lines 125-126). -/
theorem combinedSearchRun_nonpos (providers : List ChildProvider)
    (query location : String) (m : Int) (hm : m ≤ 0) :
    combinedSearchRun providers query location m = ([], []) := by
  unfold combinedSearchRun
  by_cases hp : providers.isEmpty
  · simp [hp]
  · by_cases hs : (selectedProviders providers (parse_provider_query query).1).isEmpty
    · simp [hp, hs]
    · simp [hp, hs, hm]

/-- `CombinedSearchProvider.search` on a positive budget, in closed form:
the merged values truncated to the budget, plus one call per selected
child at the ceiling-division budget. -/
theorem combinedSearchRun_pos (providers : List ChildProvider)
    (query location : String) (m : Int) (hp : providers ≠ []) (hm : 1 ≤ m) :
    combinedSearchRun providers query location m =
      ((((selectedProviders providers (parse_provider_query query).1).foldl
          (combinedStep (parse_provider_query query).2 location
            (max 1 ((m.toNat + (selectedProviders providers (parse_provider_query query).1).length - 1)
              / (selectedProviders providers (parse_provider_query query).1).length)))
          ([], [])).1.map Prod.snd).take m.toNat,
       (selectedProviders providers (parse_provider_query query).1).map
         (fun p => ⟨p.name, (parse_provider_query query).2,
           max 1 ((m.toNat + (selectedProviders providers (parse_provider_query query).1).length - 1)
             / (selectedProviders providers (parse_provider_query query).1).length)⟩)) := by
  have hsel : selectedProviders providers (parse_provider_query query).1 ≠ [] :=
    selectedProviders_ne_nil _ hp
  have hpe : providers.isEmpty = false := by
    cases providers with
    | nil => exact absurd rfl hp
    | cons a l => rfl
  have hse : (selectedProviders providers (parse_provider_query query).1).isEmpty = false := by
    cases hx : selectedProviders providers (parse_provider_query query).1 with
    | nil => exact absurd hx hsel
    | cons a l => rfl
  have hm0 : ¬ (m ≤ 0) := by omega
  unfold combinedSearchRun
  simp only [hpe, hse, hm0, Bool.false_eq_true, if_false]
  rw [combinedFold_calls]
  simp

/-- Claim C2: for a combined provider with at least one child and any budget
`m ≥ 1`, every child invocation carries `max_results ≤ ceil(m/k)` for `k`
the number of selected children, the merged output has length at most `m`,
and the per-child budgets sum to at most `m + (k - 1)`; any budget `≤ 0`
yields an empty result with no child calls. -/
theorem combined_budget_split (providers : List ChildProvider)
    (query location : String) (m mneg : Int)
    (hp : providers ≠ []) (hm : 1 ≤ m) (hneg : mneg ≤ 0) :
    (∀ c ∈ (combinedSearchRun providers query location m).2,
      c.max_results ≤
        (m.toNat + (selectedProviders providers (parse_provider_query query).1).length - 1)
          / (selectedProviders providers (parse_provider_query query).1).length) ∧
    (combinedSearchRun providers query location m).1.length ≤ m.toNat ∧
    ((combinedSearchRun providers query location m).2.map
        (fun c => c.max_results)).sum
      ≤ m.toNat + ((selectedProviders providers (parse_provider_query query).1).length - 1) ∧
    combinedSearchRun providers query location mneg = ([], []) := by
  have hrun := combinedSearchRun_pos providers query location m hp hm
  have hsel : selectedProviders providers (parse_provider_query query).1 ≠ [] :=
    selectedProviders_ne_nil _ hp
  have hk : 1 ≤ (selectedProviders providers (parse_provider_query query).1).length :=
    List.length_pos.mpr hsel
  have hmN : 1 ≤ m.toNat := by omega
  have hper : max 1 ((m.toNat + (selectedProviders providers (parse_provider_query query).1).length - 1)
      / (selectedProviders providers (parse_provider_query query).1).length)
      = (m.toNat + (selectedProviders providers (parse_provider_query query).1).length - 1)
        / (selectedProviders providers (parse_provider_query query).1).length := by
    have h1 : 1 ≤ (m.toNat + (selectedProviders providers (parse_provider_query query).1).length - 1)
        / (selectedProviders providers (parse_provider_query query).1).length := by
      apply (Nat.one_le_div_iff (by omega)).mpr
      omega
    omega
  refine ⟨?_, ?_, ?_, combinedSearchRun_nonpos providers query location mneg hneg⟩
  · intro c hc
    rw [hrun] at hc
    simp only at hc
    obtain ⟨p, hpmem, hcall⟩ := List.mem_map.mp hc
    rw [← hcall]
    simp only
    rw [hper]
  · rw [hrun]
    simp only
    exact List.length_take_le _ _
  · rw [hrun]
    simp only [List.map_map]
    have : ((selectedProviders providers (parse_provider_query query).1).map
        ((fun c : ProviderCall => c.max_results) ∘
          (fun p : ChildProvider => (⟨p.name, (parse_provider_query query).2,
            max 1 ((m.toNat + (selectedProviders providers (parse_provider_query query).1).length - 1)
              / (selectedProviders providers (parse_provider_query query).1).length)⟩ : ProviderCall)))).sum
        = ((selectedProviders providers (parse_provider_query query).1).map
          (fun _ => max 1 ((m.toNat + (selectedProviders providers (parse_provider_query query).1).length - 1)
            / (selectedProviders providers (parse_provider_query query).1).length))).sum := rfl
    rw [this, sum_map_const, hper]
    calc (selectedProviders providers (parse_provider_query query).1).length *
          ((m.toNat + (selectedProviders providers (parse_provider_query query).1).length - 1)
            / (selectedProviders providers (parse_provider_query query).1).length)
        ≤ m.toNat + (selectedProviders providers (parse_provider_query query).1).length - 1 :=
          Nat.mul_div_le _ _
      _ ≤ m.toNat + ((selectedProviders providers (parse_provider_query query).1).length - 1) := by
          omega

/-- Concrete instance of `combined_budget_split`: two children, budget 5
(per-child ceiling 3), and the non-positive budget 0. -/
theorem combined_budget_split_witness :
    (∀ c ∈ (combinedSearchRun [cxProvX, cxProvY] "Dev" "Berlin" 5).2,
      c.max_results ≤
        ((5 : Int).toNat + (selectedProviders [cxProvX, cxProvY] (parse_provider_query "Dev").1).length - 1)
          / (selectedProviders [cxProvX, cxProvY] (parse_provider_query "Dev").1).length) ∧
    (combinedSearchRun [cxProvX, cxProvY] "Dev" "Berlin" 5).1.length ≤ (5 : Int).toNat ∧
    ((combinedSearchRun [cxProvX, cxProvY] "Dev" "Berlin" 5).2.map
        (fun c => c.max_results)).sum
      ≤ (5 : Int).toNat + ((selectedProviders [cxProvX, cxProvY] (parse_provider_query "Dev").1).length - 1) ∧
    combinedSearchRun [cxProvX, cxProvY] "Dev" "Berlin" 0 = ([], []) :=
  combined_budget_split [cxProvX, cxProvY] "Dev" "Berlin" 5 0
    (List.cons_ne_nil _ _) (by decide) (by decide)

/-! ## Claim C3: routed queries -/

theorem parse_provider_query_none (q : String)
    (h : (parse_provider_query q).1 = none) :
    (parse_provider_query q).2 = q := by
  revert h
  unfold parse_provider_query
  split
  · split
    · dsimp only
      split
      · intro h; simp at h
      · intro _; rfl
    · intro _; rfl
  · intro _; rfl

/-- Claim C3 counterexample: against a combined provider with children
named `X` and `Y`, the well-formed but unknown-target query
`"provider=Z::foo"` runs ALL children with the stripped inner query
`"foo"` — not, as the claim states, with the original query. -/
theorem combined_routing_cx :
    (combinedSearchRun [cxProvX, cxProvY] "provider=Z::foo" "Berlin" 10).2
      = [⟨"X", "foo", 5⟩, ⟨"Y", "foo", 5⟩] ∧
    (combinedSearchRun [cxProvX, cxProvY] "provider=Z::foo" "Berlin" 10).2.map
        (fun c => c.query) ≠ ["provider=Z::foo", "provider=Z::foo"] := by
  decide

/-- Claim C3 (amended): a query tagged with the name of child `x` invokes
only `x`, with exactly the inner query; a query whose prefix does not parse
(no target) runs all children with the original query; a well-formed prefix
naming no child runs all children with the stripped inner query. -/
theorem combined_routing (x y : ChildProvider) (foo location q2 q3 t3 inner3 : String)
    (m : Int) (hm : 1 ≤ m) (hxy : y.name ≠ x.name)
    (hn1 : x.name.data ≠ []) (hn2 : pyStrip x.name.data = x.name.data)
    (hn3 : containsSub x.name.data _PROVIDER_QUERY_SEPARATOR.data = false)
    (hn4 : x.name.data.getLast? ≠ some ':')
    (hf1 : foo.data ≠ []) (hf2 : pyStrip foo.data = foo.data)
    (h2 : (parse_provider_query q2).1 = none)
    (h3 : parse_provider_query q3 = (some t3, inner3))
    (h3x : t3 ≠ x.name) (h3y : t3 ≠ y.name) :
    (combinedSearchRun [x, y] (format_provider_query x.name foo) location m).2.map
        (fun c => (c.provider_name, c.query)) = [(x.name, foo)] ∧
    (combinedSearchRun [x, y] q2 location m).2.map
        (fun c => (c.provider_name, c.query)) = [(x.name, q2), (y.name, q2)] ∧
    (combinedSearchRun [x, y] q3 location m).2.map
        (fun c => (c.provider_name, c.query)) = [(x.name, inner3), (y.name, inner3)] := by
  have hp : ([x, y] : List ChildProvider) ≠ [] := List.cons_ne_nil _ _
  refine ⟨?_, ?_, ?_⟩
  · have hparse := parse_format_roundtrip x.name foo ⟨hn1, hn2, hn3, hn4⟩ ⟨hf1, hf2⟩
    have h1 : (parse_provider_query (format_provider_query x.name foo)).1 = some x.name :=
      congrArg Prod.fst hparse
    have hq : (parse_provider_query (format_provider_query x.name foo)).2 = foo :=
      congrArg Prod.snd hparse
    rw [combinedSearchRun_pos [x, y] _ location m hp hm]
    simp only [h1, hq]
    have hsel : selectedProviders [x, y] (some x.name) = [x] := by
      unfold selectedProviders
      have hxx : (x.name == x.name) = true := beq_self_eq_true _
      have hyx : (y.name == x.name) = false := beq_eq_false_iff_ne.mpr hxy
      simp [List.filter, hxx, hyx]
    rw [hsel]
    simp
  · have hq2 : (parse_provider_query q2).2 = q2 := parse_provider_query_none q2 h2
    rw [combinedSearchRun_pos [x, y] q2 location m hp hm]
    simp only [h2, hq2]
    have hsel : selectedProviders [x, y] none = [x, y] := rfl
    rw [hsel]
    simp
  · have h31 : (parse_provider_query q3).1 = some t3 := congrArg Prod.fst h3
    have h32 : (parse_provider_query q3).2 = inner3 := congrArg Prod.snd h3
    rw [combinedSearchRun_pos [x, y] q3 location m hp hm]
    simp only [h31, h32]
    have hsel : selectedProviders [x, y] (some t3) = [x, y] := by
      unfold selectedProviders
      have hxt : (x.name == t3) = false := beq_eq_false_iff_ne.mpr (fun h => h3x h.symm)
      have hyt : (y.name == t3) = false := beq_eq_false_iff_ne.mpr (fun h => h3y h.symm)
      simp [List.filter, hxt, hyt]
    rw [hsel]
    simp

/-- Concrete instance of `combined_routing`: children `"X"`/`"Y"`, routed
query `provider=X::foo`, untagged query `"plain"`, unknown-target query
`provider=Z::bar`. -/
theorem combined_routing_witness :
    (combinedSearchRun [cxProvX, cxProvY]
        (format_provider_query "X" "foo") "Berlin" 10).2.map
        (fun c => (c.provider_name, c.query)) = [("X", "foo")] ∧
    (combinedSearchRun [cxProvX, cxProvY] "plain" "Berlin" 10).2.map
        (fun c => (c.provider_name, c.query)) = [("X", "plain"), ("Y", "plain")] ∧
    (combinedSearchRun [cxProvX, cxProvY] "provider=Z::bar" "Berlin" 10).2.map
        (fun c => (c.provider_name, c.query)) = [("X", "bar"), ("Y", "bar")] :=
  combined_routing cxProvX cxProvY "foo" "Berlin" "plain" "provider=Z::bar" "Z" "bar"
    10 (by decide) (by decide) (by decide) (by decide) (by decide) (by decide)
    (by decide) (by decide) (by decide) (by decide) (by decide) (by decide)

/-! ## Helper lemmas: orchestrator state -/

theorem processJob_all_jobs (st : SAState) (j : JobListing) :
    (processJob st j).all_jobs = insertJob st.all_jobs j := by
  unfold processJob insertJob
  split <;> rfl

theorem processJob_completed (st : SAState) (j : JobListing) :
    (processJob st j).completed = st.completed := by
  unfold processJob
  split <;> rfl

theorem processJob_early_stop (st : SAState) (j : JobListing) :
    (processJob st j).early_stop = st.early_stop := by
  unfold processJob
  split <;> rfl

theorem processJob_progress (st : SAState) (j : JobListing) :
    (processJob st j).progress = st.progress := by
  unfold processJob
  split <;> rfl

theorem foldl_processJob_completed (jobs : List JobListing) :
    ∀ st : SAState, (jobs.foldl processJob st).completed = st.completed := by
  induction jobs with
  | nil => intro st; rfl
  | cons j jobs ih =>
    intro st
    rw [List.foldl_cons, ih, processJob_completed]

theorem foldl_processJob_early_stop (jobs : List JobListing) :
    ∀ st : SAState, (jobs.foldl processJob st).early_stop = st.early_stop := by
  induction jobs with
  | nil => intro st; rfl
  | cons j jobs ih =>
    intro st
    rw [List.foldl_cons, ih, processJob_early_stop]

theorem foldl_processJob_progress (jobs : List JobListing) :
    ∀ st : SAState, (jobs.foldl processJob st).progress = st.progress := by
  induction jobs with
  | nil => intro st; rfl
  | cons j jobs ih =>
    intro st
    rw [List.foldl_cons, ih, processJob_progress]

theorem foldl_processJob_all_jobs (jobs : List JobListing) :
    ∀ st : SAState,
      (jobs.foldl processJob st).all_jobs = jobs.foldl insertJob st.all_jobs := by
  induction jobs with
  | nil => intro st; rfl
  | cons j jobs ih =>
    intro st
    rw [List.foldl_cons, List.foldl_cons, ih, processJob_all_jobs]

theorem insertJob_length_le (m : List (String × JobListing)) (j : JobListing) :
    m.length ≤ (insertJob m j).length := by
  unfold insertJob
  split
  · exact le_refl _
  · simp

theorem foldl_insertJob_length_le (jobs : List JobListing) :
    ∀ m : List (String × JobListing),
      m.length ≤ (jobs.foldl insertJob m).length := by
  induction jobs with
  | nil => intro m; exact le_refl _
  | cons j jobs ih =>
    intro m
    exact le_trans (insertJob_length_le m j) (ih (insertJob m j))

theorem bumpCount_upd_fst (k' : String) (p : String × Nat) :
    (if p.1 == k' then (p.1, p.2 + 1) else p).1 = p.1 := by
  split <;> rfl

theorem getCount_bumpCount_le (m : List (String × Nat)) (k' k : String) :
    getCount m k ≤ getCount (bumpCount m k') k := by
  cases hf : m.find? (fun p => p.1 == k) with
  | none =>
    have h0 : getCount m k = 0 := by unfold getCount; rw [hf]
    rw [h0]
    exact Nat.zero_le _
  | some e =>
    have hL : getCount m k = e.2 := by unfold getCount; rw [hf]
    rw [hL]
    unfold bumpCount
    by_cases hany : (m.any fun p => p.1 == k') = true
    · simp only [hany, if_true]
      unfold getCount
      rw [List.find?_map]
      have hcomp : ((fun p : String × Nat => p.1 == k) ∘
          (fun p : String × Nat => if p.1 == k' then (p.1, p.2 + 1) else p))
          = (fun p : String × Nat => p.1 == k) := by
        funext p
        show ((if p.1 == k' then (p.1, p.2 + 1) else p).1 == k) = (p.1 == k)
        rw [bumpCount_upd_fst]
      rw [hcomp, hf]
      simp only [Option.map_some']
      split <;> simp
    · have hany' : (m.any fun p => p.1 == k') = false := by
        cases h : (m.any fun p => p.1 == k') with
        | false => rfl
        | true => exact absurd h hany
      simp only [hany', Bool.false_eq_true, if_false]
      unfold getCount
      rw [List.find?_append, hf]
      simp

theorem getCount_processJob_le (st : SAState) (j : JobListing) (k : String) :
    getCount st.source_counts k ≤ getCount (processJob st j).source_counts k := by
  unfold processJob
  split
  · exact le_refl _
  · exact getCount_bumpCount_le _ _ _

theorem getCount_foldl_processJob_le (jobs : List JobListing) :
    ∀ (st : SAState) (k : String),
      getCount st.source_counts k ≤
        getCount (jobs.foldl processJob st).source_counts k := by
  induction jobs with
  | nil => intro st k; exact le_refl _
  | cons j jobs ih =>
    intro st k
    exact le_trans (getCount_processJob_le st j k) (ih (processJob st j) k)

theorem processBatch_fields (qs : List String) (mu total : Nat)
    (st : SAState) (b : List JobListing) :
    (processBatch qs mu total st b).all_jobs = (b.foldl processJob st).all_jobs ∧
    (processBatch qs mu total st b).source_counts = (b.foldl processJob st).source_counts ∧
    (processBatch qs mu total st b).completed = st.completed + 1 ∧
    (processBatch qs mu total st b).progress
      = st.progress ++ [(st.completed + 1, total, (b.foldl processJob st).all_jobs.length)] ∧
    (processBatch qs mu total st b).early_stop
      = ((b.foldl processJob st).early_stop ||
          (decide (0 < mu) && decide (mu ≤ (b.foldl processJob st).all_jobs.length) &&
            qs.all (fun s => _MIN_JOBS_PER_PROVIDER ≤ getCount (b.foldl processJob st).source_counts s))) := by
  unfold processBatch
  refine ⟨rfl, rfl, ?_, ?_, ?_⟩
  · show (b.foldl processJob st).completed + 1 = st.completed + 1
    rw [foldl_processJob_completed]
  · show (b.foldl processJob st).progress ++ _ = _
    rw [foldl_processJob_progress, foldl_processJob_completed]
  · simp only [decide_eq_true_eq]

/-- `min_unique_jobs = 0` disables early stopping entirely: the flag never
gets set and every batch is consumed. -/
theorem runQueue_zero_min (qs : List String) (total : Nat)
    (batches : List (List JobListing)) :
    ∀ st : SAState, st.early_stop = false →
      (runQueue qs 0 total st batches).early_stop = false ∧
      (runQueue qs 0 total st batches).completed = st.completed + batches.length := by
  induction batches with
  | nil => intro st h; exact ⟨h, by simp [runQueue]⟩
  | cons b bs ih =>
    intro st h
    rw [runQueue]
    simp only [h, Bool.false_eq_true, if_false]
    have hb := processBatch_fields qs 0 total st b
    have hstop : (processBatch qs 0 total st b).early_stop = false := by
      rw [hb.2.2.2.2, foldl_processJob_early_stop, h]
      simp
    obtain ⟨h1, h2⟩ := ih (processBatch qs 0 total st b) hstop
    refine ⟨h1, ?_⟩
    rw [h2, hb.2.2.1]
    simp [List.length_cons]
    omega

/-- A run whose early-stop flag is set consumes nothing further. -/
theorem runQueue_stopped (qs : List String) (mu total : Nat)
    (st : SAState) (bs : List (List JobListing)) (h : st.early_stop = true) :
    runQueue qs mu total st bs = st := by
  cases bs with
  | nil => rfl
  | cons b bs => rw [runQueue]; simp [h]

/-- The early-stop flag can only be set in a state meeting the effective
minimum and every tracked source's quota floor. -/
theorem processBatch_quota_safe (qs : List String) (mu total : Nat)
    (st : SAState) (b : List JobListing)
    (hst : st.early_stop = true →
      mu ≤ st.all_jobs.length ∧
      ∀ s ∈ qs, _MIN_JOBS_PER_PROVIDER ≤ getCount st.source_counts s)
    (hstop : (processBatch qs mu total st b).early_stop = true) :
    mu ≤ (processBatch qs mu total st b).all_jobs.length ∧
    ∀ s ∈ qs, _MIN_JOBS_PER_PROVIDER ≤
      getCount (processBatch qs mu total st b).source_counts s := by
  have hb := processBatch_fields qs mu total st b
  rw [hb.2.2.2.2] at hstop
  rw [hb.1, hb.2.1]
  rw [foldl_processJob_early_stop] at hstop
  rcases Bool.or_eq_true_iff.mp hstop with hold | hcond
  · obtain ⟨hmu, hcounts⟩ := hst hold
    constructor
    · calc mu ≤ st.all_jobs.length := hmu
        _ ≤ (b.foldl insertJob st.all_jobs).length := foldl_insertJob_length_le b _
        _ = (b.foldl processJob st).all_jobs.length := by rw [foldl_processJob_all_jobs]
    · intro s hs
      exact le_trans (hcounts s hs) (getCount_foldl_processJob_le b st s)
  · rcases Bool.and_eq_true_iff.mp hcond with ⟨hmm, hquota⟩
    rcases Bool.and_eq_true_iff.mp hmm with ⟨_, hle⟩
    constructor
    · exact of_decide_eq_true hle
    · intro s hs
      exact of_decide_eq_true (List.all_eq_true.mp hquota s hs)

/-- Invariant form over a whole run. -/
theorem runQueue_quota_safe (qs : List String) (mu total : Nat)
    (batches : List (List JobListing)) :
    ∀ st : SAState,
      (st.early_stop = true →
        mu ≤ st.all_jobs.length ∧
        ∀ s ∈ qs, _MIN_JOBS_PER_PROVIDER ≤ getCount st.source_counts s) →
      (runQueue qs mu total st batches).early_stop = true →
      mu ≤ (runQueue qs mu total st batches).all_jobs.length ∧
      ∀ s ∈ qs, _MIN_JOBS_PER_PROVIDER ≤
        getCount (runQueue qs mu total st batches).source_counts s := by
  induction batches with
  | nil => intro st hst hstop; exact hst hstop
  | cons b bs ih =>
    intro st hst
    rw [runQueue]
    by_cases h : st.early_stop = true
    · simp only [h, if_true]
      exact fun _ => hst h
    · have h' : st.early_stop = false := by
        cases hx : st.early_stop with
        | false => rfl
        | true => exact absurd hx h
      simp only [h', Bool.false_eq_true, if_false]
      exact ih (processBatch qs mu total st b) (processBatch_quota_safe qs mu total st b hst)

/-- Claim C5: with quota tracking active for two sources, a run from the
initial state sets `early_stop` only in a state where the effective
minimum is met AND both tracked sources' counters have reached the
per-source floor (a single source exceeding the global minimum alone
cannot trigger it); and once stopped, no further batches are consumed
(pending work is cancelled, results dropped unread). -/
theorem quota_fairness (s1 s2 : String) (mu total : Nat)
    (batches more : List (List JobListing)) :
    ((runQueue [s1, s2] mu total initState batches).early_stop = true →
      mu ≤ (runQueue [s1, s2] mu total initState batches).all_jobs.length ∧
      _MIN_JOBS_PER_PROVIDER ≤
        getCount (runQueue [s1, s2] mu total initState batches).source_counts s1 ∧
      _MIN_JOBS_PER_PROVIDER ≤
        getCount (runQueue [s1, s2] mu total initState batches).source_counts s2) ∧
    ((runQueue [s1, s2] mu total initState batches).early_stop = true →
      runQueue [s1, s2] mu total (runQueue [s1, s2] mu total initState batches) more
        = runQueue [s1, s2] mu total initState batches) := by
  constructor
  · intro hstop
    have hinv := runQueue_quota_safe [s1, s2] mu total batches initState
      (by intro h; exact absurd h (by simp [initState])) hstop
    refine ⟨hinv.1, hinv.2 s1 (by simp), hinv.2 s2 (by simp)⟩
  · intro hstop
    exact runQueue_stopped _ mu total _ more hstop

set_option maxRecDepth 100000 in
/-- Concrete instance of `quota_fairness`: one batch carrying 30 unique
listings from each of the two tracked sources, `min_unique_jobs = 1`; the
run stops, both floors are met, and a later batch is not consumed. -/
theorem quota_fairness_witness :
    (1 ≤ (runQueue ["a", "b"] 1 2 initState [demoBatch]).all_jobs.length ∧
      _MIN_JOBS_PER_PROVIDER ≤
        getCount (runQueue ["a", "b"] 1 2 initState [demoBatch]).source_counts "a" ∧
      _MIN_JOBS_PER_PROVIDER ≤
        getCount (runQueue ["a", "b"] 1 2 initState [demoBatch]).source_counts "b") ∧
    runQueue ["a", "b"] 1 2 (runQueue ["a", "b"] 1 2 initState [demoBatch]) [[demoJob "c" 0]]
      = runQueue ["a", "b"] 1 2 initState [demoBatch] := by
  have h := quota_fairness "a" "b" 1 2 [demoBatch] [[demoJob "c" 0]]
  have hstop : (runQueue ["a", "b"] 1 2 initState [demoBatch]).early_stop = true := by
    decide
  exact ⟨h.1 hstop, h.2 hstop⟩

/-- Claim C4: when the active provider is combined and `min_unique_jobs`
is positive, the effective threshold is at least the fixed per-provider
floor times the number of tracked sources; a zero `min_unique_jobs`
disables all quota logic — the threshold stays zero, the early-stop flag
is never set, and every query batch is consumed. -/
theorem quota_threshold_raise (qs : List String) (minUnique total : Nat)
    (batches : List (List JobListing)) (hpos : 0 < minUnique) :
    _MIN_JOBS_PER_PROVIDER * qs.length ≤ effectiveMinUnique true qs minUnique ∧
    effectiveMinUnique true qs 0 = 0 ∧
    (searchAllQueriesModel true qs 0 total batches).early_stop = false ∧
    (searchAllQueriesModel true qs 0 total batches).completed = batches.length := by
  have hzero : effectiveMinUnique true qs 0 = 0 := by
    unfold effectiveMinUnique
    simp
  refine ⟨?_, hzero, ?_, ?_⟩
  · unfold effectiveMinUnique
    cases qs with
    | nil => simp
    | cons s qs =>
      simp only [List.isEmpty_cons, Bool.not_false, Bool.true_and, true_and]
      rw [decide_eq_true hpos]
      simp [Nat.le_max_right]
  · unfold searchAllQueriesModel
    rw [hzero]
    exact (runQueue_zero_min qs total batches initState rfl).1
  · unfold searchAllQueriesModel
    rw [hzero]
    have h := (runQueue_zero_min qs total batches initState rfl).2
    simpa [initState] using h

/-- Concrete instance of `quota_threshold_raise`: two tracked sources,
`min_unique_jobs = 5` is raised to at least 60; with zero it stays zero
and a 2-batch run completes both batches without stopping. -/
theorem quota_threshold_raise_witness :
    _MIN_JOBS_PER_PROVIDER * (["a", "b"] : List String).length
        ≤ effectiveMinUnique true ["a", "b"] 5 ∧
    effectiveMinUnique true ["a", "b"] 0 = 0 ∧
    (searchAllQueriesModel true ["a", "b"] 0 2 [[demoJob "a" 0], [demoJob "b" 0]]).early_stop = false ∧
    (searchAllQueriesModel true ["a", "b"] 0 2 [[demoJob "a" 0], [demoJob "b" 0]]).completed = 2 :=
  quota_threshold_raise ["a", "b"] 5 2 [[demoJob "a" 0], [demoJob "b" 0]] (by decide)

/-! ## Claim C9: progress reports are monotone -/

theorem progressMono_append (e : Nat × Nat × Nat) (l : List (Nat × Nat × Nat)) :
    progressMono l → (∀ x ∈ l, x.1 ≤ e.1 ∧ x.2.2 ≤ e.2.2) →
    progressMono (l ++ [e]) := by
  induction l with
  | nil => intro _ _; exact trivial
  | cons a l ih =>
    intro hm hb
    cases l with
    | nil =>
      exact ⟨hb a (by simp), trivial⟩
    | cons b l2 =>
      obtain ⟨hab, hrest⟩ := hm
      exact ⟨hab, ih hrest (fun x hx => hb x (by simp at hx ⊢; tauto))⟩

/-- Invariant: the recorded progress stays monotone and is bounded by the
current completed count and unique count. -/
theorem runQueue_progress_mono (qs : List String) (mu total : Nat)
    (batches : List (List JobListing)) :
    ∀ st : SAState, progressMono st.progress →
      (∀ x ∈ st.progress, x.1 ≤ st.completed ∧ x.2.2 ≤ st.all_jobs.length) →
      progressMono (runQueue qs mu total st batches).progress ∧
      (∀ x ∈ (runQueue qs mu total st batches).progress,
        x.1 ≤ (runQueue qs mu total st batches).completed ∧
        x.2.2 ≤ (runQueue qs mu total st batches).all_jobs.length) := by
  induction batches with
  | nil => intro st hm hb; exact ⟨hm, hb⟩
  | cons b bs ih =>
    intro st hm hb
    rw [runQueue]
    by_cases h : st.early_stop = true
    · simp only [h, if_true]
      exact ⟨hm, hb⟩
    · have h' : st.early_stop = false := by
        cases hx : st.early_stop with
        | false => rfl
        | true => exact absurd hx h
      simp only [h', Bool.false_eq_true, if_false]
      have hf := processBatch_fields qs mu total st b
      have hgrow : st.all_jobs.length ≤ (b.foldl processJob st).all_jobs.length := by
        rw [foldl_processJob_all_jobs]
        exact foldl_insertJob_length_le b st.all_jobs
      apply ih
      · rw [hf.2.2.2.1]
        apply progressMono_append _ _ hm
        intro x hx
        obtain ⟨h1, h2⟩ := hb x hx
        exact ⟨by omega, by simp only; omega⟩
      · rw [hf.2.2.2.1, hf.2.2.1, hf.1]
        intro x hx
        rcases List.mem_append.mp hx with hx | hx
        · obtain ⟨h1, h2⟩ := hb x hx
          exact ⟨by omega, by omega⟩
        · simp only [List.mem_singleton] at hx
          subst hx
          exact ⟨le_refl _, le_refl _⟩

/-- Claim C9: across every orchestrator run, the sequence of
`on_progress(completed, total, unique)` invocations reports
non-decreasing completed counts and non-decreasing unique counts. -/
theorem progress_reports_monotone (isCombined : Bool) (qs : List String)
    (minUnique total : Nat) (batches : List (List JobListing)) :
    progressMono (searchAllQueriesModel isCombined qs minUnique total batches).progress := by
  unfold searchAllQueriesModel
  exact (runQueue_progress_mono _ _ total batches initState trivial (by simp [initState])).1

/-! ## Claims C6/C7: Bundesagentur detail extraction and retry policy -/

/-- Claim C6 (code bug): the HTML detail extraction returns exactly the
nested `jobdetail` object for a 200 page with the ng-state tag, `{}` for a
page without the tag, and `{}` for a non-200 terminal status — but on a
200 page whose ng-state blob fails to parse, `json.loads` raises
`json.JSONDecodeError`, which the `except httpx.HTTPError` clause of
`_fetch_detail` does not catch, so the exception propagates instead of
yielding `{}` as the claim (and the function's own docstring) state. -/
theorem fetch_detail_extraction :
    _fetch_detail goodLoads (fun _ => .resp 200 goodBody)
      = (.ok (Json.obj [("x", Json.num 1)]), 1) ∧
    _fetch_detail goodLoads (fun _ => .resp 200 "<html>no tag</html>")
      = (.ok emptyObj, 1) ∧
    _fetch_detail goodLoads (fun _ => .resp 404 "")
      = (.ok emptyObj, 1) ∧
    _fetch_detail (fun _ => none) (fun _ => .resp 200 badBody)
      = (.raised "json.JSONDecodeError", 1) :=
  ⟨rfl, rfl, rfl, rfl⟩

theorem fetchDetailLoop_503 (loads : String → Option Json)
    (responses : Nat → HttpOutcome) (bodyOf : Nat → String)
    (h503 : ∀ i, responses i = .resp 503 (bodyOf i)) :
    ∀ (fuel attempt : Nat),
      fetchDetailLoop loads responses attempt fuel = (.ok emptyObj, attempt + fuel) := by
  intro fuel
  induction fuel with
  | zero => intro attempt; rfl
  | succ fuel ih =>
    intro attempt
    rw [fetchDetailLoop, h503 attempt]
    have h1 : (503 : Nat) ≠ 200 := by omega
    simp only [h1, if_false, isRetryableStatus]
    norm_num
    rw [ih (attempt + 1)]
    congr 1
    omega

theorem fetchDetailApiLoop_503 (jsonOf : String → Option Json)
    (responses : Nat → HttpOutcome) (bodyOf : Nat → String)
    (h503 : ∀ i, responses i = .resp 503 (bodyOf i)) :
    ∀ (fuel attempt : Nat),
      fetchDetailApiLoop jsonOf responses attempt fuel = (.ok emptyObj, attempt + fuel) := by
  intro fuel
  induction fuel with
  | zero => intro attempt; rfl
  | succ fuel ih =>
    intro attempt
    rw [fetchDetailApiLoop, h503 attempt]
    have h1 : (503 : Nat) ≠ 200 := by omega
    simp only [h1, if_false, isRetryableStatus]
    norm_num
    rw [ih (attempt + 1)]
    congr 1
    omega

theorem getWithRetryLoop_503 (responses : Nat → HttpOutcome) (bodyOf : Nat → String)
    (h503 : ∀ i, responses i = .resp 503 (bodyOf i)) :
    ∀ (fuel attempt : Nat),
      getWithRetryLoop responses attempt fuel = (none, attempt + fuel) := by
  intro fuel
  induction fuel with
  | zero => intro attempt; rfl
  | succ fuel ih =>
    intro attempt
    rw [getWithRetryLoop, h503 attempt]
    have h1 : (503 : Nat) ≠ 200 := by omega
    simp only [h1, if_false, isRetryableStatus]
    norm_num
    rw [ih (attempt + 1)]
    congr 1
    omega

/-- Claim C7: a server answering 503 on every request is attempted exactly
`_MAX_RETRIES = 3` times by all three Provider A request paths (HTML
detail, API detail, search), each then yielding an empty result rather
than an exception; a 4xx status other than 403/429 on the first request
makes each path give up immediately (one attempt, empty result). -/
theorem retry_policy (loads jsonOf : String → Option Json)
    (responses responses2 : Nat → HttpOutcome) (bodyOf : Nat → String)
    (s : Nat) (b2 : String)
    (h503 : ∀ i, responses i = .resp 503 (bodyOf i))
    (hs4 : 400 ≤ s) (hs4' : s < 500) (hs403 : s ≠ 403) (hs429 : s ≠ 429)
    (hfirst : responses2 0 = .resp s b2) :
    _fetch_detail loads responses = (.ok emptyObj, _MAX_RETRIES) ∧
    _fetch_detail_api jsonOf responses = (.ok emptyObj, _MAX_RETRIES) ∧
    _get_with_retry responses = (none, _MAX_RETRIES) ∧
    _fetch_detail loads responses2 = (.ok emptyObj, 1) ∧
    _fetch_detail_api jsonOf responses2 = (.ok emptyObj, 1) ∧
    _get_with_retry responses2 = (none, 1) := by
  have hs200 : s ≠ 200 := by omega
  have hsr : isRetryableStatus s = false := by
    unfold isRetryableStatus
    simp only [Bool.or_eq_false_iff, decide_eq_false_iff_not]
    omega
  refine ⟨?_, ?_, ?_, ?_, ?_, ?_⟩
  · exact fetchDetailLoop_503 loads responses bodyOf h503 _MAX_RETRIES 0
  · exact fetchDetailApiLoop_503 jsonOf responses bodyOf h503 _MAX_RETRIES 0
  · exact getWithRetryLoop_503 responses bodyOf h503 _MAX_RETRIES 0
  · show fetchDetailLoop loads responses2 0 _MAX_RETRIES = (.ok emptyObj, 1)
    rw [show _MAX_RETRIES = 2 + 1 from rfl, fetchDetailLoop, hfirst]
    simp [hs200, hsr]
  · show fetchDetailApiLoop jsonOf responses2 0 _MAX_RETRIES = (.ok emptyObj, 1)
    rw [show _MAX_RETRIES = 2 + 1 from rfl, fetchDetailApiLoop, hfirst]
    simp [hs200, hsr]
  · show getWithRetryLoop responses2 0 _MAX_RETRIES = (none, 1)
    rw [show _MAX_RETRIES = 2 + 1 from rfl, getWithRetryLoop, hfirst]
    simp [hs200, hsr]

/-- Concrete instance of `retry_policy`: always-503 and first-response-404
servers. -/
theorem retry_policy_witness :
    _fetch_detail goodLoads (fun _ => .resp 503 "") = (.ok emptyObj, _MAX_RETRIES) ∧
    _fetch_detail_api goodLoads (fun _ => .resp 503 "") = (.ok emptyObj, _MAX_RETRIES) ∧
    _get_with_retry (fun _ => .resp 503 "") = (none, _MAX_RETRIES) ∧
    _fetch_detail goodLoads (fun _ => .resp 404 "x") = (.ok emptyObj, 1) ∧
    _fetch_detail_api goodLoads (fun _ => .resp 404 "x") = (.ok emptyObj, 1) ∧
    _get_with_retry (fun _ => .resp 404 "x") = (none, 1) :=
  retry_policy goodLoads goodLoads (fun _ => .resp 503 "") (fun _ => .resp 404 "x")
    (fun _ => "") 404 "x" (fun _ => rfl) (by omega) (by omega) (by omega) (by omega) rfl

/-! ## Claim C8: region-code inference -/

/-- Claim C8 counterexample: `"Ukraine"` is not remote-only and none of its
whitespace tokens equals any curated-table key, so under the claimed
explicit token matching the inference would fall back to the default
`"de"`; the code instead matches by substring containment (`"uk"` occurs
inside `"ukraine"`) and returns `"uk"`. -/
theorem infer_gl_cx :
    infer_gl "Ukraine" = some "uk" ∧
    is_remote_only "Ukraine" = false ∧
    GL_CODES.all (fun p =>
      !((splitWsAux "Ukraine".data []).map pyLowerData).any
        (fun w => p.1.data == w)) = true ∧
    some "uk" ≠ some "de" := by
  decide

/-- Claim C8 (amended): region-code inference matches the lowercased
location against the curated table by substring containment in table
order — the first entry whose key occurs inside the location wins; when
the location is non-remote and no table key occurs as a substring, the
default `"de"` is returned; a remote-only location yields no code. -/
theorem infer_gl_amended (location : String) (pre post : List (String × String))
    (name code : String) :
    (is_remote_only location = true → infer_gl location = none) ∧
    (is_remote_only location = false →
      (∀ p ∈ GL_CODES, containsSub (pyLowerData location.data) p.1.data = false) →
      infer_gl location = some "de") ∧
    (is_remote_only location = false →
      GL_CODES = pre ++ (name, code) :: post →
      (∀ p ∈ pre, containsSub (pyLowerData location.data) p.1.data = false) →
      containsSub (pyLowerData location.data) name.data = true →
      infer_gl location = some code) := by
  refine ⟨?_, ?_, ?_⟩
  · intro h
    simp [infer_gl, h]
  · intro h hall
    unfold infer_gl
    rw [h]
    simp only [Bool.false_eq_true, if_false]
    have hnone : GL_CODES.find?
        (fun p => containsSub (pyLowerData location.data) p.1.data) = none := by
      apply List.find?_eq_none.mpr
      intro p hp
      rw [hall p hp]
      simp
    rw [hnone]
  · intro h hsplit hpre hname
    unfold infer_gl
    rw [h]
    simp only [Bool.false_eq_true, if_false]
    rw [hsplit, List.find?_append]
    have h1 : pre.find?
        (fun p => containsSub (pyLowerData location.data) p.1.data) = none := by
      apply List.find?_eq_none.mpr
      intro p hp
      rw [hpre p hp]
      simp
    have h2 : ((name, code) :: post).find?
        (fun p => containsSub (pyLowerData location.data) p.1.data)
        = some (name, code) :=
      List.find?_cons_of_pos _ hname
    rw [h1, h2]
    rfl

/-- Concrete instances of `infer_gl_amended`: a remote-only location, an
unmatched location, and a location matched by the `("wien", "at")` entry
(the 66th, with no earlier entry matching). -/
theorem infer_gl_amended_witness :
    infer_gl "remote worldwide" = none ∧
    infer_gl "Gondor" = some "de" ∧
    infer_gl "Wien" = some "at" :=
  ⟨(infer_gl_amended "remote worldwide" [] [] "" "").1 (by decide),
   (infer_gl_amended "Gondor" [] [] "" "").2.1 (by decide) (by decide),
   (infer_gl_amended "Wien" (GL_CODES.take 65) (GL_CODES.drop 66) "wien" "at").2.2
     (by decide) (by decide) (by decide) (by decide)⟩

/-! ## Claim C1: orchestrator-level deduplication -/

/-- The listings the run keeps are exactly a first-writer-wins fold of the
consumed batches over the dedup map. -/
theorem runQueue_all_jobs_eq (qs : List String) (mu total : Nat) :
    ∀ (batches : List (List JobListing)) (st : SAState),
      (runQueue qs mu total st batches).all_jobs
        = (consumedJobs qs mu total st batches).foldl insertJob st.all_jobs := by
  intro batches
  induction batches with
  | nil => intro st; rfl
  | cons b bs ih =>
    intro st
    rw [runQueue, consumedJobs]
    by_cases h : st.early_stop = true
    · simp [h]
    · have h' : st.early_stop = false := by
        cases hx : st.early_stop with
        | false => rfl
        | true => exact absurd hx h
      simp only [h', Bool.false_eq_true, if_false]
      rw [ih (processBatch qs mu total st b), List.foldl_append,
        (processBatch_fields qs mu total st b).1, foldl_processJob_all_jobs]

theorem foldl_insertJob_filter_stable (k : String) :
    ∀ (l : List JobListing) (acc : List (String × JobListing)),
      acc.any (fun p => p.1 == k) = true →
      (l.foldl insertJob acc).filter (fun p => p.1 == k)
        = acc.filter (fun p => p.1 == k) := by
  intro l
  induction l with
  | nil => intro acc h; rfl
  | cons j l ih =>
    intro acc h
    rw [List.foldl_cons]
    have hkeep : (insertJob acc j).any (fun p => p.1 == k) = true := by
      unfold insertJob
      split
      · exact h
      · rw [List.any_append, h]
        rfl
    rw [ih (insertJob acc j) hkeep]
    unfold insertJob
    split
    · rfl
    · rename_i hnot
      have hne : (dedupKey j == k) = false := by
        cases hbe : (dedupKey j == k) with
        | false => rfl
        | true =>
          have hkk : dedupKey j = k := eq_of_beq hbe
          rw [← hkk] at h
          exact absurd h hnot
      rw [List.filter_append]
      have h1 : List.filter (fun p : String × JobListing => p.1 == k)
          [(dedupKey j, j)] = [] := by
        simp [List.filter, hne]
      rw [h1, List.append_nil]

theorem foldl_insertJob_filter_first (k : String) :
    ∀ (l : List JobListing) (acc : List (String × JobListing)),
      acc.any (fun p => p.1 == k) = false →
      (l.foldl insertJob acc).filter (fun p => p.1 == k)
        = ((l.find? (fun x => dedupKey x == k)).map (fun x => (k, x))).toList := by
  intro l
  induction l with
  | nil =>
    intro acc h
    simp only [List.foldl_nil, List.find?_nil]
    have : acc.filter (fun p => p.1 == k) = [] :=
      List.filter_eq_nil_iff.mpr (List.any_eq_false.mp h)
    rw [this]
    rfl
  | cons j l ih =>
    intro acc h
    rw [List.foldl_cons]
    by_cases hj : (dedupKey j == k) = true
    · have hkey : dedupKey j = k := eq_of_beq hj
      have haccj : acc.any (fun p => p.1 == dedupKey j) = false := by
        rw [hkey]; exact h
      have hins : insertJob acc j = acc ++ [(dedupKey j, j)] := by
        unfold insertJob
        rw [haccj]
        simp
      have hany : (acc ++ [(dedupKey j, j)]).any (fun p => p.1 == k) = true := by
        rw [List.any_append]
        simp [hj]
      rw [hins, foldl_insertJob_filter_stable k l _ hany, List.filter_append]
      have hfacc : acc.filter (fun p => p.1 == k) = [] :=
        List.filter_eq_nil_iff.mpr (List.any_eq_false.mp h)
      have hfone : List.filter (fun p : String × JobListing => p.1 == k)
          [(dedupKey j, j)] = [(dedupKey j, j)] := by
        simp [List.filter, hj]
      rw [hfacc, hfone,
        List.find?_cons_of_pos (p := fun x => dedupKey x == k) l hj]
      simp [hkey]
    · have hj' : (dedupKey j == k) = false := by
        cases hbe : (dedupKey j == k) with
        | false => rfl
        | true => exact absurd hbe hj
      have hacc' : (insertJob acc j).any (fun p => p.1 == k) = false := by
        unfold insertJob
        split
        · exact h
        · rw [List.any_append, h]
          simp [hj']
      rw [ih (insertJob acc j) hacc',
        List.find?_cons_of_neg (p := fun x => dedupKey x == k) l hj]

theorem foldl_insertJob_mem (l : List JobListing) :
    ∀ (acc : List (String × JobListing)) (p : String × JobListing),
      p ∈ l.foldl insertJob acc → p ∈ acc ∨ p.2 ∈ l := by
  induction l with
  | nil => intro acc p h; exact Or.inl h
  | cons j l ih =>
    intro acc p h
    rcases ih (insertJob acc j) p h with hmem | hmem
    · unfold insertJob at hmem
      split at hmem
      · exact Or.inl hmem
      · rcases List.mem_append.mp hmem with h1 | h1
        · exact Or.inl h1
        · simp only [List.mem_singleton] at h1
          subst h1
          exact Or.inr (by simp)
    · exact Or.inr (by simp [hmem])

theorem foldl_insertJob_fst (l : List JobListing) :
    ∀ (acc : List (String × JobListing)),
      (∀ p ∈ acc, p.1 = dedupKey p.2) →
      ∀ p ∈ l.foldl insertJob acc, p.1 = dedupKey p.2 := by
  induction l with
  | nil => intro acc hacc p hp; exact hacc p hp
  | cons j l ih =>
    intro acc hacc p hp
    refine ih (insertJob acc j) ?_ p hp
    intro q hq
    unfold insertJob at hq
    split at hq
    · exact hacc q hq
    · rcases List.mem_append.mp hq with h1 | h1
      · exact hacc q h1
      · simp only [List.mem_singleton] at h1
        subst h1
        rfl

theorem find?_congr_on {α : Type} (p q : α → Bool) :
    ∀ l : List α, (∀ x ∈ l, p x = q x) → l.find? p = l.find? q := by
  intro l
  induction l with
  | nil => intro _; rfl
  | cons a l ih =>
    intro h
    have ha := h a (by simp)
    by_cases hpa : p a = true
    · rw [List.find?_cons_of_pos _ hpa, List.find?_cons_of_pos _ (ha ▸ hpa)]
    · have hqa : ¬ q a = true := by rw [← ha]; exact hpa
      rw [List.find?_cons_of_neg _ hpa, List.find?_cons_of_neg _ hqa,
        ih (fun x hx => h x (by simp [hx]))]

theorem filter_map_snd (q : JobListing → Bool) :
    ∀ m : List (String × JobListing),
      (m.map Prod.snd).filter q = (m.filter (fun p => q p.2)).map Prod.snd := by
  intro m
  induction m with
  | nil => rfl
  | cons p m ih =>
    rw [List.map_cons, List.filter_cons, List.filter_cons]
    by_cases h : q p.2 = true
    · simp only [h, if_true, List.map_cons, ih]
    · simp only [h, Bool.false_eq_true, if_false, ih]

theorem append_pipe_inj :
    ∀ (a1 a2 r1 r2 : List Char),
      a1.any (fun c => c = '|') = false → a2.any (fun c => c = '|') = false →
      a1 ++ '|' :: r1 = a2 ++ '|' :: r2 → a1 = a2 ∧ r1 = r2 := by
  intro a1
  induction a1 with
  | nil =>
    intro a2 r1 r2 _ h2 heq
    cases a2 with
    | nil =>
      simp only [List.nil_append] at heq
      injection heq with _ hr
      exact ⟨rfl, hr⟩
    | cons d a2 =>
      simp only [List.nil_append, List.cons_append] at heq
      injection heq with hd _
      rw [← hd] at h2
      simp at h2
  | cons c a1 ih =>
    intro a2 r1 r2 h1 h2 heq
    cases a2 with
    | nil =>
      simp only [List.cons_append, List.nil_append] at heq
      injection heq with hc _
      rw [hc] at h1
      simp at h1
    | cons d a2 =>
      simp only [List.cons_append] at heq
      injection heq with hcd htail
      have h1' : a1.any (fun c => c = '|') = false := by
        simp only [List.any_cons, Bool.or_eq_false_iff] at h1
        exact h1.2
      have h2' : a2.any (fun c => c = '|') = false := by
        simp only [List.any_cons, Bool.or_eq_false_iff] at h2
        exact h2.2
      obtain ⟨ha, hr⟩ := ih a2 r1 r2 h1' h2' htail
      exact ⟨by rw [hcd, ha], hr⟩

theorem dedupKey_data (x : JobListing) :
    (dedupKey x).data
      = x.title.data ++ '|' :: (x.company_name.data ++ '|' :: x.location.data) := by
  simp [dedupKey, String.data_append]

/-- For pipe-free listings, dedup-key equality coincides with agreement on
the (title, company, location) triple. -/
theorem sameTriple_eq_key (x j : JobListing)
    (hx : pipeFree x = true) (hj : pipeFree j = true) :
    sameTriple x j = (dedupKey x == dedupKey j) := by
  have hx' : pipeFreeStr x.title = true ∧ pipeFreeStr x.company_name = true ∧
      pipeFreeStr x.location = true := by
    simpa [pipeFree, Bool.and_eq_true, and_assoc] using hx
  have hj' : pipeFreeStr j.title = true ∧ pipeFreeStr j.company_name = true ∧
      pipeFreeStr j.location = true := by
    simpa [pipeFree, Bool.and_eq_true, and_assoc] using hj
  cases hst : sameTriple x j with
  | true =>
    have h3 : (x.title == j.title) = true ∧ (x.company_name == j.company_name) = true ∧
        (x.location == j.location) = true := by
      simpa [sameTriple, Bool.and_eq_true, and_assoc] using hst
    have : dedupKey x = dedupKey j := by
      unfold dedupKey
      rw [eq_of_beq h3.1, eq_of_beq h3.2.1, eq_of_beq h3.2.2]
    rw [this]
    exact (beq_self_eq_true _).symm
  | false =>
    cases hbe : (dedupKey x == dedupKey j) with
    | false => rfl
    | true =>
      exfalso
      have hdata := congrArg String.data (eq_of_beq hbe)
      rw [dedupKey_data, dedupKey_data] at hdata
      have hxT : x.title.data.any (fun c => c = '|') = false := by
        have := hx'.1
        unfold pipeFreeStr at this
        cases h : x.title.data.any (fun c => c = '|') with
        | false => rfl
        | true => rw [h] at this; exact absurd this (by simp)
      have hjT : j.title.data.any (fun c => c = '|') = false := by
        have := hj'.1
        unfold pipeFreeStr at this
        cases h : j.title.data.any (fun c => c = '|') with
        | false => rfl
        | true => rw [h] at this; exact absurd this (by simp)
      have hxC : x.company_name.data.any (fun c => c = '|') = false := by
        have := hx'.2.1
        unfold pipeFreeStr at this
        cases h : x.company_name.data.any (fun c => c = '|') with
        | false => rfl
        | true => rw [h] at this; exact absurd this (by simp)
      have hjC : j.company_name.data.any (fun c => c = '|') = false := by
        have := hj'.2.1
        unfold pipeFreeStr at this
        cases h : j.company_name.data.any (fun c => c = '|') with
        | false => rfl
        | true => rw [h] at this; exact absurd this (by simp)
      obtain ⟨hT, hrest⟩ := append_pipe_inj _ _ _ _ hxT hjT hdata
      obtain ⟨hC, hL⟩ := append_pipe_inj _ _ _ _ hxC hjC hrest
      have hT' : x.title = j.title := congrArg String.mk hT
      have hC' : x.company_name = j.company_name := congrArg String.mk hC
      have hL' : x.location = j.location := congrArg String.mk hL
      have htrue : sameTriple x j = true := by
        unfold sameTriple
        rw [hT', hC', hL']
        simp
      rw [htrue] at hst
      exact Bool.noConfusion hst

/-- Among the listings of `proc`, exactly one representative of each
(title, company, location) triple survives the first-writer-wins fold, and
it is the first one in `proc` with that triple — provided no field
contains the `'|'` key separator. -/
theorem dedup_filter_first (proc : List JobListing) (j : JobListing)
    (hclean : ∀ x ∈ proc, pipeFree x = true) (hj : j ∈ proc) :
    (proc.find? (fun x => sameTriple x j)).isSome = true ∧
    ((proc.foldl insertJob []).map Prod.snd).filter (fun x => sameTriple x j)
      = (proc.find? (fun x => sameTriple x j)).toList := by
  have hjp : pipeFree j = true := hclean j hj
  have hfind : proc.find? (fun x => sameTriple x j)
      = proc.find? (fun x => dedupKey x == dedupKey j) :=
    find?_congr_on _ _ proc (fun x hx => sameTriple_eq_key x j (hclean x hx) hjp)
  constructor
  · exact List.find?_isSome.mpr ⟨j, hj, by simp [sameTriple]⟩
  · have hmemproc : ∀ p ∈ proc.foldl insertJob ([] : List (String × JobListing)),
        p.2 ∈ proc := by
      intro p hp
      rcases foldl_insertJob_mem proc [] p hp with h0 | h0
      · exact absurd h0 (List.not_mem_nil p)
      · exact h0
    have hstep1 : ((proc.foldl insertJob []).map Prod.snd).filter (fun x => sameTriple x j)
        = ((proc.foldl insertJob []).map Prod.snd).filter
            (fun x => dedupKey x == dedupKey j) := by
      apply List.filter_congr
      intro x hx
      obtain ⟨p, hp, hpx⟩ := List.mem_map.mp hx
      have hxin : x ∈ proc := hpx ▸ hmemproc p hp
      exact sameTriple_eq_key x j (hclean x hxin) hjp
    have hstep2 : ((proc.foldl insertJob []).map Prod.snd).filter
          (fun x => dedupKey x == dedupKey j)
        = ((proc.foldl insertJob []).filter
            (fun p => dedupKey p.2 == dedupKey j)).map Prod.snd :=
      filter_map_snd _ _
    have hstep3 : (proc.foldl insertJob []).filter (fun p => dedupKey p.2 == dedupKey j)
        = (proc.foldl insertJob []).filter (fun p => p.1 == dedupKey j) := by
      apply List.filter_congr
      intro p hp
      rw [foldl_insertJob_fst proc [] (by intro q hq; exact absurd hq (List.not_mem_nil q)) p hp]
    have hstep4 : (proc.foldl insertJob []).filter (fun p => p.1 == dedupKey j)
        = ((proc.find? (fun x => dedupKey x == dedupKey j)).map
            (fun x => (dedupKey j, x))).toList :=
      foldl_insertJob_filter_first (dedupKey j) proc [] rfl
    rw [hstep1, hstep2, hstep3, hstep4, hfind]
    cases proc.find? (fun x => dedupKey x == dedupKey j) with
    | none => rfl
    | some f => rfl

/-- Claim C1 counterexample: two listings with DIFFERENT identity triples
(`("a|b", "c", "d")` and `("a", "b|c", "d")`) collide on the dedup-key
string `"a|b|c|d"`, so the second is dropped: among the returned listings
sharing the triple of the second listing (exactly one such listing), NONE
appears in the orchestrator's output, refuting "exactly one". -/
theorem orchestrator_dedup_cx :
    sameTriple cxJobA cxJobB = false ∧
    cxJobB ∈ consumedJobs [] 0 1 initState [[cxJobA, cxJobB]] ∧
    (runQueue [] 0 1 initState [[cxJobA, cxJobB]]).all_jobs.map Prod.snd = [cxJobA] ∧
    ((runQueue [] 0 1 initState [[cxJobA, cxJobB]]).all_jobs.map Prod.snd).filter
      (fun x => sameTriple x cxJobB) = [] := by
  decide

/-- Claim C1 (amended): in every orchestrator run, among the listings of
the batches the orchestrator accepted (read before early stop), provided
no title/company/location contains `'|'`: for each accepted listing `j`, a
first listing sharing `j`'s triple exists among the accepted ones, and the
output's listings with that triple are exactly that first one
(first-writer-wins under the lock). -/
theorem orchestrator_dedup (qs : List String) (mu total : Nat)
    (batches : List (List JobListing)) (j : JobListing)
    (hclean : ∀ x ∈ consumedJobs qs mu total initState batches, pipeFree x = true)
    (hj : j ∈ consumedJobs qs mu total initState batches) :
    ((consumedJobs qs mu total initState batches).find?
        (fun x => sameTriple x j)).isSome = true ∧
    ((runQueue qs mu total initState batches).all_jobs.map Prod.snd).filter
        (fun x => sameTriple x j)
      = ((consumedJobs qs mu total initState batches).find?
          (fun x => sameTriple x j)).toList := by
  have h := dedup_filter_first (consumedJobs qs mu total initState batches) j hclean hj
  refine ⟨h.1, ?_⟩
  rw [runQueue_all_jobs_eq]
  exact h.2

/-- Concrete instance of `orchestrator_dedup`: a batch with a duplicated
listing; the duplicate's triple keeps exactly its first occurrence. -/
theorem orchestrator_dedup_witness :
    ((consumedJobs [] 0 1 initState [[demoJob "a" 0, demoJob "b" 0, demoJob "a" 0]]).find?
        (fun x => sameTriple x (demoJob "a" 0))).isSome = true ∧
    ((runQueue [] 0 1 initState [[demoJob "a" 0, demoJob "b" 0, demoJob "a" 0]]).all_jobs.map
        Prod.snd).filter (fun x => sameTriple x (demoJob "a" 0))
      = ((consumedJobs [] 0 1 initState [[demoJob "a" 0, demoJob "b" 0, demoJob "a" 0]]).find?
          (fun x => sameTriple x (demoJob "a" 0))).toList :=
  orchestrator_dedup [] 0 1 [[demoJob "a" 0, demoJob "b" 0, demoJob "a" 0]]
    (demoJob "a" 0) (by decide) (by decide)

end Stellenscout
